import Mathlib

/-!
Shallow embedding of the RBAC aggregation and group-membership-expansion core of
AzureEnumRBAC, together with proofs about the specified properties.

The embedded functions are translated from:
  - `AzureEnumRBAC/g_combine_rbac_users.py` (scope resolution, assignment
    accumulation, per-subscription processing, bracketed-count transformation),
  - `AzureEnumRBAC/f_enumerate_group_members.py` (recursive group expansion with
    a shared visited set),
  - `AzureEnumRBAC/i_combine_identities.py` (identity join),
  - `AzureEnumRBAC/j_role_matrix.py` (two-pass matrix flattening).

Python dictionaries are modelled as insertion-ordered association lists where
assignment to an existing key replaces the value in place (`insertD`), matching
CPython semantics.  Python sets are modelled as `Finset String`.  File reads
that may be absent or unparsable are modelled as `Option` inputs.  The remote
paginated member fetch of the group expander is modelled as a total adjacency
list (`Graph`): the union of all fetched pages for a group, with a missing
group yielding an empty member list.  The unbounded Python recursion of
`expand_group_membership` is embedded with an explicit fuel parameter; a fuel
of `graph_fuel g` is proved sufficient (the recursion depth is bounded by the
number of group nodes, since each nested call inserts a fresh node into the
shared visited set).
-/

/-- Model of Python `str.lower()` (ASCII case folding, which covers all
identifiers appearing in this system). -/
def pyLower (s : String) : String := ⟨s.data.map Char.toLower⟩

/-- Model of Python `str.strip()`: remove leading and trailing whitespace. -/
def pyStrip (s : String) : String :=
  ⟨((s.data.dropWhile Char.isWhitespace).reverse.dropWhile Char.isWhitespace).reverse⟩

/-- Split a character list at the first occurrence of `c`; `none` when `c`
does not occur.  Used to model Python `str.find` / `str.split(c, 1)`. -/
def splitFirst (c : Char) : List Char → Option (List Char × List Char)
  | [] => none
  | x :: xs =>
    if x = c then some ([], xs)
    else
      match splitFirst c xs with
      | some p => some (x :: p.1, p.2)
      | none => none

/-- Whether the first list is an initial segment of the second. -/
def leadsWith : List Char → List Char → Bool
  | [], _ => true
  | _ :: _, [] => false
  | a :: as, b :: bs => a = b && leadsWith as bs

/-- Whether `needle` occurs contiguously inside the second list; models the
Python substring test `needle in haystack`. -/
def hasSub (needle : List Char) : List Char → Bool
  | [] => leadsWith needle []
  | c :: rest => leadsWith needle (c :: rest) || hasSub needle rest

/-- Decimal value of a digit-character list (most significant first). -/
def digitsVal (l : List Char) : Nat :=
  l.foldl (fun a c => a * 10 + (c.toNat - 48)) 0

/-- Read the bracketed integer that a serialized aggregate key starts with:
for `"[42]label"` this returns `42`, and `0` when the key does not start with
a bracketed number.  This is the parser direction of the key-encoding
convention used by the aggregate tree. -/
def bracketCount (s : String) : Nat :=
  match s.data with
  | '[' :: rest =>
    match splitFirst ']' rest with
    | some p => digitsVal p.1
    | none => 0
  | _ => 0

/-- Association-list lookup, first match wins (Python `dict` access). -/
def lookupD {α : Type} (k : String) : List (String × α) → Option α
  | [] => none
  | (k', v) :: rest => if k' = k then some v else lookupD k rest

/-- Association-list store, replacing in place when the key is present and
appending otherwise: CPython `d[k] = v` on an insertion-ordered dict. -/
def insertD {α : Type} (k : String) (v : α) : List (String × α) → List (String × α)
  | [] => [(k, v)]
  | (k', v') :: rest => if k' = k then (k, v) :: rest else (k', v') :: insertD k v rest

/-! ## g_combine_rbac_users.py: scope resolution and assignment accumulation -/

/-- The lookup dictionary built by `load_resource_lookup`: the subscription's
total resource count under `"total"` and a resource-group-id-to-count map
under `"rg"`.  The empty-dictionary case (missing or unparsable resource file)
is modelled as `Option.none` at use sites. -/
structure ResourceLookup where
  total : Nat
  rg : List (String × Nat)
deriving DecidableEq

/-- Translation of `get_resource_count_for_scope(scope, sub_id, resource_lookup)`
(g_combine_rbac_users.py, lines 43-60). -/
def get_resource_count_for_scope (scope sub_id : String) (resource_lookup : Option ResourceLookup) :
    Nat :=
  match resource_lookup with
  | none => 1
  | some lookup =>
    let sub_scope := pyLower ("/subscriptions/" ++ sub_id)
    if pyStrip scope = "/" ∨ pyLower scope = sub_scope then
      lookup.total
    else
      (lookupD scope lookup.rg).getD 1

/-- Description of scope resolution following the amended specification
wording: the `"/"` comparison strips whitespace, the subscription comparison
is case-insensitive but does not strip, and resource-group matching is an
exact string lookup.  Stated separately so the source translation can be
proved to refine it. -/
def spec_scope_resolution_amended (scope sub_id : String)
    (resource_lookup : Option ResourceLookup) : Nat :=
  match resource_lookup with
  | none => 1
  | some lookup =>
    if pyStrip scope = "/" then lookup.total
    else if pyLower scope = pyLower ("/subscriptions/" ++ sub_id) then lookup.total
    else
      match lookupD scope lookup.rg with
      | some c => c
      | none => 1

/-- The combined nested mapping `principal -> role -> "<sub>:<scope>" -> count`. -/
abbrev Combined := List (String × List (String × List (String × Nat)))

/-- Translation of `add_assignment` (g_combine_rbac_users.py, lines 62-77):
create the nested dictionaries on demand and accumulate the resource count
additively into the leaf. -/
def add_assignment (combined : Combined) (principal_id role scope sub_id : String)
    (resource_lookup : Option ResourceLookup) : Combined :=
  let resource_count := get_resource_count_for_scope scope sub_id resource_lookup
  let leaf_key := sub_id ++ ":" ++ scope
  let roles := (lookupD principal_id combined).getD []
  let leaves := (lookupD role roles).getD []
  let current := (lookupD leaf_key leaves).getD 0
  insertD principal_id (insertD role (insertD leaf_key (current + resource_count) leaves) roles)
    combined

/-- The count stored at leaf `k` under `(p, r)`, `0` when absent — the value
`add_assignment` starts from when creating a leaf. -/
def leafCount (combined : Combined) (p r k : String) : Nat :=
  ((lookupD k ((lookupD r ((lookupD p combined).getD [])).getD [])).getD 0)

/-- Argument triple of one `add_assignment` call when principal and role are
fixed: the assignment scope, the subscription id and the resource lookup. -/
structure CallArgs where
  scope : String
  sub_id : String
  resource_lookup : Option ResourceLookup

/-- One record from a per-subscription `user.json` assignment file. -/
structure UAssign where
  principalId : String
  roleDefinitionName : String
  scope : String
deriving DecidableEq

/-- Translation of `process_user_assignments` (g_combine_rbac_users.py,
lines 79-97): `none` models a missing or unparsable `user.json`. -/
def process_user_assignments (sub_id : String) (user_file : Option (List UAssign))
    (combined : Combined) (resource_lookup : Option ResourceLookup) : Combined :=
  match user_file with
  | none => combined
  | some assignments =>
    assignments.foldl
      (fun c a => add_assignment c a.principalId a.roleDefinitionName a.scope sub_id resource_lookup)
      combined

/-- One record from a per-subscription `group.json` assignment file (keyed by
group id at the call site). -/
structure GAssign where
  roleDefinitionName : String
  scope : String
deriving DecidableEq

/-- The `members` object of one expanded group record. -/
structure MembersRecord where
  users : List String
  groups : List String
  others : List String
deriving DecidableEq

/-- One record of a `<sub>_group_members.json` expansion file. -/
structure GroupEntry where
  displayName : Option String
  members : MembersRecord
deriving DecidableEq

/-- Translation of `process_group_assignments` (g_combine_rbac_users.py,
lines 99-133): if either input file is missing or unparsable (`none`) the
combined mapping is returned unchanged; a group whose id is absent from the
expansion map contributes nothing. -/
def process_group_assignments (sub_id : String)
    (group_file : Option (List (String × GAssign)))
    (members_file : Option (List (String × GroupEntry)))
    (combined : Combined) (resource_lookup : Option ResourceLookup) : Combined :=
  match group_file, members_file with
  | some group_assignments, some group_members =>
    group_assignments.foldl
      (fun c ga =>
        match lookupD ga.1 group_members with
        | some entry =>
          entry.members.users.foldl
            (fun c' u =>
              add_assignment c' u ga.2.roleDefinitionName ga.2.scope sub_id resource_lookup)
            c
        | none => c)
      combined
  | _, _ => combined

/-- The per-subscription inputs consumed by the aggregation loop of `main`
(g_combine_rbac_users.py, lines 227-236). -/
structure SubInput where
  sub_id : String
  resource_lookup : Option ResourceLookup
  user_file : Option (List UAssign)
  group_file : Option (List (String × GAssign))
  members_file : Option (List (String × GroupEntry))

/-- One iteration of the aggregation loop: user assignments, then group
assignments, for a single subscription. -/
def process_subscription (combined : Combined) (s : SubInput) : Combined :=
  process_group_assignments s.sub_id s.group_file s.members_file
    (process_user_assignments s.sub_id s.user_file combined s.resource_lookup)
    s.resource_lookup

/-- The whole aggregation loop over all subscriptions. -/
def combine_all (subs : List SubInput) : Combined :=
  subs.foldl process_subscription []

/-- Replace a subscription's group inputs by the groups that actually have an
expansion record, dropping the group phase entirely when either file is
absent: the "as if the affected groups did not exist" reading of the claim. -/
def normalize_groups (s : SubInput) : SubInput :=
  match s.group_file, s.members_file with
  | some ga, some gm =>
    { s with group_file := some (ga.filter (fun p => (lookupD p.1 gm).isSome)) }
  | _, _ => { s with group_file := some [], members_file := some [] }

/-- Model of the leaf-key split in `transform_structure`: Python
`leaf.split(":", 1)` when a colon is present, else `(leaf, "")`. -/
def splitColon (leaf : String) : String × String :=
  match splitFirst ':' leaf.data with
  | some p => (⟨p.1⟩, ⟨p.2⟩)
  | none => (leaf, "")

/-- The bracketed-count key encoding `f"[{n}]{label}"`. -/
def bracketKey (n : Nat) (label : String) : String :=
  "[" ++ Nat.repr n ++ "]" ++ label

/-- Translation of `transform_structure` (g_combine_rbac_users.py,
lines 165-208): every key is prefixed with its aggregated count in square
brackets, and the leaf key `"<sub>:<scope>"` is split so that the new leaf key
is `"[<count>]<sub>"` with the scope as its value.  The inner dictionaries are
built by repeated dict assignment, so bracketed keys that collide overwrite
earlier circumstances exactly as in CPython. -/
def transform_structure (combined : Combined) :
    List (String × List (String × List (String × String))) :=
  combined.foldl
    (fun transformed pEntry =>
      let folded := pEntry.2.foldl
        (fun acc rEntry =>
          let role_total := (rEntry.2.map Prod.snd).sum
          let new_leaves := rEntry.2.foldl
            (fun nl lEntry =>
              let sp := splitColon lEntry.1
              insertD (bracketKey lEntry.2 sp.1) sp.2 nl)
            []
          (acc.1 + role_total, insertD (bracketKey role_total rEntry.1) new_leaves acc.2))
        ((0 : Nat), [])
      insertD (bracketKey folded.1 pEntry.1) folded.2 transformed)
    []

/-- A combined mapping on which `transform_structure` loses a leaf: both
leaves live in subscription `s1` with count `1`, so both transformed leaf keys
are `"[1]s1"` and the second dict assignment overwrites the first. -/
def c1_input : Combined := [("p", [("r", [("s1:/a", 1), ("s1:/b", 1)])])]

/-! ## f_enumerate_group_members.py: recursive membership expansion -/

/-- The running aggregate of `expand_group_membership`: the three Python sets
`users`, `groups`, `others`. -/
structure Agg where
  users : Finset String
  groups : Finset String
  others : Finset String
deriving DecidableEq

/-- The freshly initialised aggregate. -/
def emptyAgg : Agg := ⟨∅, ∅, ∅⟩

/-- Add an id to the `users` set. -/
def addUser (i : String) (a : Agg) : Agg := { a with users := insert i a.users }

/-- Add an id to the `groups` set. -/
def addGroup (i : String) (a : Agg) : Agg := { a with groups := insert i a.groups }

/-- Add an id to the `others` set. -/
def addOther (i : String) (a : Agg) : Agg := { a with others := insert i a.others }

/-- Merge a nested expansion result into the running aggregate: the three
`set.update` calls of the Python group branch. -/
def mergeAgg (a n : Agg) : Agg :=
  { users := a.users ∪ n.users, groups := a.groups ∪ n.groups, others := a.others ∪ n.others }

/-- The directory graph: each group id maps to its member list, a member being
an `@odata.type` discriminator string paired with an id.  This stands for the
union of all member pages the Python code fetches for the group. -/
abbrev Graph := List (String × List (String × String))

/-- The member list of a group; a group that is absent (fetch failed or
unknown id) has no members. -/
def membersOf (g : Graph) (gid : String) : List (String × String) :=
  (lookupD gid g).getD []

/-- Classification of a member record by its type discriminator. -/
inductive MemberClass
  | user
  | group
  | other
deriving DecidableEq

/-- Translation of the member classification of `expand_group_membership`
(f_enumerate_group_members.py, lines 66-79): lower-case the discriminator,
test for the substring `"user"`, then `"group"`, else other. -/
def classifyMember (odata_type : String) : MemberClass :=
  let t := pyLower odata_type
  if hasSub "user".data t.data then .user
  else if hasSub "group".data t.data then .group
  else .other

/-- Fuel-indexed translation of `expand_group_membership(group_id, token,
visited)` (f_enumerate_group_members.py, lines 44-82).  The pair carries the
aggregate together with the shared mutable `visited` set.  A fuel of
`graph_fuel g` is proved sufficient below; exhausted fuel returns the same
value as the visited-guard base case. -/
def expandF (g : Graph) : Nat → String → Finset String → Agg × Finset String
  | 0, _, visited => (emptyAgg, visited)
  | fuel + 1, group_id, visited =>
    if group_id ∈ visited then (emptyAgg, visited)
    else
      (membersOf g group_id).foldl
        (fun st m =>
          match classifyMember m.1 with
          | .user => (addUser m.2 st.1, st.2)
          | .group =>
            let r := expandF g fuel m.2 st.2
            (mergeAgg (addGroup m.2 st.1) r.1, r.2)
          | .other => (addOther m.2 st.1, st.2))
        (emptyAgg, insert group_id visited)

/-- The loop body of `expandF` at recursion budget `fuel`, processing one
member against the running `(aggregate, visited)` state. -/
def stepF (g : Graph) (fuel : Nat) (st : Agg × Finset String) (m : String × String) :
    Agg × Finset String :=
  match classifyMember m.1 with
  | .user => (addUser m.2 st.1, st.2)
  | .group =>
    let r := expandF g fuel m.2 st.2
    (mergeAgg (addGroup m.2 st.1) r.1, r.2)
  | .other => (addOther m.2 st.1, st.2)

/-- The set of group ids the graph has a member list for. -/
def nodesOf (g : Graph) : Finset String := (g.map Prod.fst).toFinset

/-- A recursion budget sufficient for any expansion over `g`. -/
def graph_fuel (g : Graph) : Nat := (nodesOf g).card + 1

/-- The embedded `expand_group_membership`: the fuel-indexed translation run
with a provably sufficient budget. -/
def expand_group_membership (g : Graph) (group_id : String) (visited : Finset String) :
    Agg × Finset String :=
  expandF g (graph_fuel g) group_id visited

/-- Whether a member record is a group-typed edge pointing at `a`. -/
def isGroupEdgeTo (a : String) (m : String × String) : Bool :=
  match classifyMember m.1 with
  | .group => m.2 == a
  | _ => false

/-- Remove the membership edge `b -> a` (all group-typed occurrences of `a`
in the member list of `b`). -/
def remove_cycle_edge (g : Graph) (b a : String) : Graph :=
  g.map (fun entry =>
    (entry.1, if entry.1 = b then entry.2.filter (fun m => !(isGroupEdgeTo a m)) else entry.2))

/-- All ids that appear as the target of a group-typed member edge somewhere
in the graph. -/
def groupEdgeTargets (g : Graph) : List String :=
  (g.flatMap Prod.snd).filterMap (fun m =>
    match classifyMember m.1 with
    | .group => some m.2
    | _ => none)

/-- The group-typed edge targets of one member list. -/
def groupTargetsOfList (ms : List (String × String)) : List String :=
  ms.filterMap (fun m =>
    match classifyMember m.1 with
    | .group => some m.2
    | _ => none)

/-- How far the visited set still is from covering the graph's group nodes;
the recursion depth left for an expansion started at `vis`. -/
def visGap (g : Graph) (vis : Finset String) : Nat := ((nodesOf g) \ vis).card

/-- Relation between expansion aggregates over a graph and over the graph
with the cycle edges into `a` removed: users and others agree, and the
original groups set exceeds the reduced one by at most `a` itself. -/
abbrev aggRel (a : String) (x y : Agg) : Prop :=
  x.users = y.users ∧ x.others = y.others ∧ y.groups ⊆ x.groups ∧ x.groups ⊆ insert a y.groups

/-- `aggRel` on the aggregate plus equality of the visited sets. -/
abbrev stRel (a : String) (r r' : Agg × Finset String) : Prop :=
  aggRel a r.1 r'.1 ∧ r.2 = r'.2

/-- The minimal membership cycle `A -> B -> A`. -/
def cycleG : Graph := [("A", [("group", "B")]), ("B", [("group", "A")])]

/-- A small acyclic graph used to witness the no-self-membership statement. -/
def acyclicG : Graph := [("A", [("group", "B"), ("user", "U1")]), ("B", [("user", "U2")])]

/-! ## i_combine_identities.py: identity join -/

/-- A principal's aggregate subtree as serialized by the g phase: bracketed
role keys mapping to bracketed leaf keys mapping to scope strings. -/
abbrev RbacObj := List (String × List (String × String))

/-- One Graph-profile record from `h_user_personal_data.json`; absent JSON
fields are `none`. -/
structure Profile where
  givenName : Option String := none
  surname : Option String := none
  displayName : Option String := none
  userPrincipalName : Option String := none
  mail : Option String := none
  jobTitle : Option String := none
  mobilePhone : Option String := none
  businessPhones : Option (List String) := none
deriving DecidableEq

/-- One joined identity record; `none` models an omitted JSON key. -/
structure UserEntry where
  mail : Option String := none
  displayName : Option String := none
  jobTitle : Option String := none
  mobilePhone : Option String := none
  businessPhone : Option String := none
  businessPhones : Option (List String) := none
  rbac : Option RbacObj := none
deriving DecidableEq

/-- Translation of `extract_id_from_bracketed_key` (i_combine_identities.py,
lines 30-39): the substring after the first `']'`, or the whole key when no
`']'` occurs. -/
def extract_id_from_bracketed_key (key : String) : String :=
  match splitFirst ']' key.data with
  | some p => ⟨p.2⟩
  | none => key

/-- Python truthiness fallback `x or dflt` for an optional string: `none` and
the empty string both fall through. -/
def pyTruthy (o : Option String) (dflt : String) : String :=
  match o with
  | some s => if s = "" then dflt else s
  | none => dflt

/-- The top-level name derivation of the identity join (i_combine_identities.py,
lines 77-85): the stripped given name and surname joined by a space, falling
back to display name, then user principal name, then a literal marker. -/
def full_name_of (d : Profile) : String :=
  let g := pyStrip (d.givenName.getD "")
  let sn := pyStrip (d.surname.getD "")
  let pieces := (if g = "" then [] else [g]) ++ (if sn = "" then [] else [sn])
  if pieces = [] then pyTruthy d.displayName (pyTruthy d.userPrincipalName "(Unknown)")
  else String.intercalate " " pieces

/-- Translation of the per-user entry construction of the identity join
(i_combine_identities.py, lines 87-106): copy the four standard fields when
present, apply the businessPhones normalization, and attach the RBAC subtree
when one was found. -/
def build_user_entry (details : Profile) (found_rbac : Option RbacObj) : UserEntry :=
  let base : UserEntry :=
    { mail := details.mail, displayName := details.displayName,
      jobTitle := details.jobTitle, mobilePhone := details.mobilePhone }
  let withPhones :=
    match details.businessPhones with
    | none => base
    | some [] => base
    | some [p] => { base with businessPhone := some p }
    | some (p :: q :: rest) => { base with businessPhones := some (p :: q :: rest) }
  { withPhones with rbac := found_rbac }

/-- The RBAC lookup table keyed by real principal id (i_combine_identities.py,
lines 69-71): later duplicate decoded ids overwrite earlier ones. -/
def rbac_by_id (rbac_data : List (String × RbacObj)) : List (String × RbacObj) :=
  rbac_data.foldl (fun acc p => insertD (extract_id_from_bracketed_key p.1) p.2 acc) []

/-- Insertion of one identity record under its full name
(i_combine_identities.py, lines 108-111). -/
def insert_identity (out : List (String × List (String × UserEntry))) (nm uid : String)
    (e : UserEntry) : List (String × List (String × UserEntry)) :=
  insertD nm (insertD uid e ((lookupD nm out).getD [])) out

/-- Translation of the join loop of `main` (i_combine_identities.py,
lines 74-111): one output record per profile-map entry, grouped by full name. -/
def combine_identities (user_data : List (String × Profile))
    (rbac_data : List (String × RbacObj)) : List (String × List (String × UserEntry)) :=
  let table := rbac_by_id rbac_data
  user_data.foldl
    (fun out p => insert_identity out (full_name_of p.2) p.1 (build_user_entry p.2 (lookupD p.1 table)))
    []

/-- All principal ids appearing in a joined output. -/
def outIds (out : List (String × List (String × UserEntry))) : List String :=
  out.flatMap (fun nv => nv.2.map Prod.fst)

/-! ## j_role_matrix.py: two-pass matrix flattening -/

/-- One principal record as read by the role-matrix flattener. -/
structure JDetails where
  displayName : Option String := none
  jobTitle : Option String := none
  rbac : Option RbacObj := none
deriving DecidableEq

/-- The joined identity input of the flattener: name, then principal id, then
details. -/
abbrev JData := List (String × List (String × JDetails))

/-- Translation of `parse_bracketed_label` (j_role_matrix.py, lines 30-37):
strip the bracketed count and surrounding whitespace from a role key, leaving
keys without the bracketed shape untouched. -/
def parse_bracketed_label (s : String) : String :=
  match s.data with
  | '[' :: rest =>
    match splitFirst ']' rest with
    | some p => pyStrip ⟨p.2⟩
    | none => s
  | _ => s

/-- One row as accumulated by pass A of the flattener, before the frequency
is stamped. -/
structure RowBase where
  role : String
  name : String
  displayName : String
  jobTitle : String
  principalID : String
  scope : String
deriving DecidableEq

/-- Pass A of `main` (j_role_matrix.py, lines 95-123): walk every
name/principal/role/leaf combination and emit one row per leaf. -/
def passA_rows (data : JData) : List RowBase :=
  data.flatMap (fun nEntry =>
    nEntry.2.flatMap (fun pEntry =>
      (pEntry.2.rbac.getD []).flatMap (fun rEntry =>
        rEntry.2.map (fun lf =>
          { role := parse_bracketed_label rEntry.1
            name := nEntry.1
            displayName := pEntry.2.displayName.getD ""
            jobTitle := pEntry.2.jobTitle.getD ""
            principalID := pEntry.1
            scope := lf.2 }))))

/-- The global role-frequency map accumulated alongside pass A
(j_role_matrix.py, line 113): one increment per emitted row. -/
def role_count_map (data : JData) : List (String × Nat) :=
  (passA_rows data).foldl (fun m r => insertD r.role ((lookupD r.role m).getD 0 + 1) m) []

/-- One finished matrix row, frequency included. -/
structure JRow where
  principle_count : Nat
  role : String
  name : String
  displayName : String
  jobTitle : String
  principalID : String
  scope : String
deriving DecidableEq

/-- Pass B of `main` (j_role_matrix.py, lines 125-127): stamp every pass-A row
with the global frequency of its role label. -/
def j_rows (data : JData) : List JRow :=
  let m := role_count_map data
  (passA_rows data).map (fun r =>
    { principle_count := (lookupD r.role m).getD 0
      role := r.role
      name := r.name
      displayName := r.displayName
      jobTitle := r.jobTitle
      principalID := r.principalID
      scope := r.scope })

/-- The projection of a row the order-independence property speaks about. -/
def rolePair (r : JRow) : String × Nat := (r.role, r.principle_count)

/-- Order-free view of one principal's details: the two display fields plus
the role tree with both dictionary levels taken as multisets. -/
abbrev CanonDetails := Option String × Option String × Multiset (String × Multiset (String × String))

/-- Canonicalize one principal's details. -/
def canonDetails (d : JDetails) : CanonDetails :=
  (d.displayName, d.jobTitle,
    ((d.rbac.getD []).map (fun p => (p.1, (p.2 : Multiset (String × String)))) :
      Multiset (String × Multiset (String × String))))

/-- Order-free view of the flattener input: every dictionary level of the
nested structure taken as a multiset.  Two inputs have the same canonical form
exactly when one arises from the other by permuting the iteration order over
names, principals, roles and leaves. -/
def canonData (data : JData) : Multiset (String × Multiset (String × CanonDetails)) :=
  ((data.map (fun nEntry =>
      (nEntry.1,
        ((nEntry.2.map (fun pEntry => (pEntry.1, canonDetails pEntry.2))) :
          Multiset (String × CanonDetails))))) :
    Multiset (String × Multiset (String × CanonDetails)))

instance : DecidableEq (Multiset (String × Multiset (String × String))) := inferInstance

instance : DecidableEq CanonDetails := inferInstance

instance : DecidableEq (Multiset (String × CanonDetails)) := inferInstance

instance : DecidableEq (Multiset (String × Multiset (String × CanonDetails))) := inferInstance

/-- The leaf rows of one canonicalized principal. -/
def mrowsOf (nm pid : String) (cd : CanonDetails) : Multiset RowBase :=
  cd.2.2.bind (fun rEntry =>
    rEntry.2.map (fun lf =>
      { role := parse_bracketed_label rEntry.1
        name := nm
        displayName := cd.1.getD ""
        jobTitle := cd.2.1.getD ""
        principalID := pid
        scope := lf.2 }))

/-- The multiset of leaf rows of a canonicalized input. -/
def mrows (c : Multiset (String × Multiset (String × CanonDetails))) : Multiset RowBase :=
  c.bind (fun nEntry => nEntry.2.bind (fun pEntry => mrowsOf nEntry.1 pEntry.1 pEntry.2))

/-- Stamp every row of a row multiset with the number of rows sharing its role
label. -/
def mpairs (m : Multiset RowBase) : Multiset (String × Nat) :=
  m.map (fun r => (r.role, Multiset.countP (fun q => q.role = r.role) m))

/-! ## Concrete inputs used by counterexamples and witnesses -/

/-- A resource lookup with one resource group, used to probe the
case-sensitivity of resource-group scope resolution. -/
def rgInv : ResourceLookup := ⟨10, [("/subscriptions/s1/resourceGroups/RG1", 4)]⟩

/-- Two `add_assignment` calls that target the same leaf key `"s:/x"`. -/
def c6_calls : List CallArgs := [⟨"/x", "s", none⟩, ⟨"/x", "s", none⟩]

/-- A small flattener input with two names sharing the role label `Reader`. -/
def c9_data : JData :=
  [("Alice",
      [("p1",
          { displayName := some "Alice A"
            rbac := some [("[3]Reader", [("[2]s1", "/subscriptions/s1"), ("[1]s2", "/x")])] })]),
   ("Bob",
      [("p2", { jobTitle := some "Dev", rbac := some [("[1]Reader", [("[1]s1", "/y")])] })])]

/-- The same input with the names and Alice's leaves iterated in a different
order: its canonical form coincides with that of `c9_data`. -/
def c9_data_shuffled : JData :=
  [("Bob",
      [("p2", { jobTitle := some "Dev", rbac := some [("[1]Reader", [("[1]s1", "/y")])] })]),
   ("Alice",
      [("p1",
          { displayName := some "Alice A"
            rbac := some [("[3]Reader", [("[1]s2", "/x"), ("[2]s1", "/subscriptions/s1")])] })])]

/-! ## Dictionary lemmas -/

theorem lookupD_insertD_self {α : Type} (k : String) (v : α) (l : List (String × α)) :
    lookupD k (insertD k v l) = some v := by
  induction l with
  | nil => simp [insertD, lookupD]
  | cons p rest ih =>
    by_cases h : p.1 = k
    · simp [insertD, lookupD, h]
    · simp [insertD, lookupD, h, ih]

theorem lookupD_insertD_ne {α : Type} (k k' : String) (v : α) (l : List (String × α))
    (h : k' ≠ k) : lookupD k (insertD k' v l) = lookupD k l := by
  induction l with
  | nil => simp [insertD, lookupD, h]
  | cons p rest ih =>
    rcases p with ⟨a, b⟩
    by_cases hp : a = k'
    · subst hp
      simp [insertD, lookupD, h]
    · by_cases hk : a = k
      · subst hk
        simp [insertD, lookupD, hp]
      · simp [insertD, lookupD, hp, hk, ih]

theorem mem_keys_insertD {α : Type} (k q : String) (v : α) (l : List (String × α)) :
    q ∈ (insertD k v l).map Prod.fst ↔ q = k ∨ q ∈ l.map Prod.fst := by
  induction l with
  | nil => simp [insertD, eq_comm]
  | cons p rest ih =>
    by_cases h : p.1 = k
    · subst h
      simp [insertD, eq_comm]
    · simp only [insertD, if_neg h, List.map_cons, List.mem_cons, ih]
      tauto

/-! ## C8: phone-number normalization -/

/-- C8: for every profile record, an absent or empty `businessPhones` list
yields neither phone field, a singleton list yields only the singular
`businessPhone` field holding that string, and a list of two or more entries
yields only the plural `businessPhones` field holding the list verbatim. -/
theorem C8_phone_normalization (details : Profile) (found_rbac : Option RbacObj) :
    ((build_user_entry details found_rbac).businessPhone,
        (build_user_entry details found_rbac).businessPhones) =
      match details.businessPhones with
      | none => (none, none)
      | some [] => (none, none)
      | some [p] => (some p, none)
      | some (p :: q :: rest) => (none, some (p :: q :: rest)) := by
  cases h : details.businessPhones with
  | none => simp [build_user_entry, h]
  | some l =>
    cases l with
    | nil => simp [build_user_entry, h]
    | cons p t => cases t <;> simp [build_user_entry, h]

/-! ## C5: scope resolution at subscription level -/

/-- C5 counterexample: the claim demands that any scope equal to
`"/subscriptions/s1"` after stripping whitespace (case-insensitively) resolve
to the inventory total, but the source strips only for the `"/"` comparison,
so a leading space makes the function fall through to the default `1`. -/
theorem C5_counterexample :
    pyLower (pyStrip " /subscriptions/s1") = pyLower ("/subscriptions/" ++ "s1") ∧
    get_resource_count_for_scope " /subscriptions/s1" "s1" (some ⟨10, []⟩) = 1 ∧
    (⟨10, []⟩ : ResourceLookup).total ≠ 1 := by
  decide

/-- C5 (amended): `get_resource_count_for_scope` is a pure function equal to
the amended description: an empty lookup yields `1`; a scope that strips to
`"/"`, or that equals `"/subscriptions/{subId}"` case-insensitively without
stripping, yields the inventory total; an exact resource-group key yields its
count; everything else yields `1`. -/
theorem C5_amended_scope_resolution (scope sub_id : String)
    (resource_lookup : Option ResourceLookup) :
    get_resource_count_for_scope scope sub_id resource_lookup
      = spec_scope_resolution_amended scope sub_id resource_lookup := by
  cases resource_lookup with
  | none => rfl
  | some lk =>
    unfold get_resource_count_for_scope spec_scope_resolution_amended
    by_cases h1 : pyStrip scope = "/"
    · simp [h1]
    · by_cases h2 : pyLower scope = pyLower ("/subscriptions/" ++ sub_id)
      · simp [h1, h2]
      · simp only [h1, h2, or_self, if_false, if_neg h1, if_neg h2]
        cases lookupD scope lk.rg <;> simp

/-! ## C3: resource-group scope resolution -/

/-- C3 counterexample: the claim demands case-insensitive resource-group
matching, but the source looks the raw scope up in the resource-group
dictionary verbatim, so a scope differing from the stored id only in letter
case resolves to the individual-resource default `1` instead of the group's
count `4`. -/
theorem C3_counterexample :
    pyLower (pyStrip "/subscriptions/s1/resourcegroups/rg1")
        = pyLower (pyStrip "/subscriptions/s1/resourceGroups/RG1") ∧
    lookupD "/subscriptions/s1/resourceGroups/RG1" rgInv.rg = some 4 ∧
    get_resource_count_for_scope "/subscriptions/s1/resourcegroups/rg1" "s1" (some rgInv) = 1 ∧
    (1 : Nat) ≠ 4 := by
  decide

/-- C3 (amended): resource-group scope resolution is an exact, case-sensitive
match: when the raw scope is a key of the inventory's resource-group map with
count `c` and the scope matches neither the `"/"` form nor the subscription
form, the function returns `c`. -/
theorem C3_amended_rg_exact (scope sub_id : String) (lk : ResourceLookup) (c : Nat)
    (h1 : lookupD scope lk.rg = some c)
    (h2 : ¬(pyStrip scope = "/" ∨ pyLower scope = pyLower ("/subscriptions/" ++ sub_id))) :
    get_resource_count_for_scope scope sub_id (some lk) = c := by
  unfold get_resource_count_for_scope
  simp [h2, h1]

/-- Witness for C3 (amended) at a concrete exactly-matching scope. -/
theorem C3_amended_rg_exact_witness :
    get_resource_count_for_scope "/subscriptions/s1/resourceGroups/RG1" "s1" (some rgInv) = 4 :=
  C3_amended_rg_exact "/subscriptions/s1/resourceGroups/RG1" "s1" rgInv 4 (by decide) (by decide)

/-! ## C1: count conservation in the transformed aggregate tree -/

/-- C1: `transform_structure` violates count conservation.  On a principal
with one role and two leaves in subscription `s1`, both of count `1`, the two
transformed leaf keys collide on `"[1]s1"` and the second dictionary
assignment overwrites the first, so the role key carries the bracketed total
`2` while its surviving leaf keys sum to `1`. -/
theorem C1_transform_collision :
    transform_structure c1_input = [("[2]p", [("[2]r", [("[1]s1", "/b")])])] ∧
    ∃ pEntry ∈ transform_structure c1_input, ∃ rEntry ∈ pEntry.2,
      bracketCount rEntry.1 ≠ (rEntry.2.map (fun lEntry => bracketCount lEntry.1)).sum := by
  decide

/-! ## C6: additive leaf accumulation -/

theorem leafCount_add_same (c : Combined) (p r scope sub_id : String)
    (rl : Option ResourceLookup) :
    leafCount (add_assignment c p r scope sub_id rl) p r (sub_id ++ ":" ++ scope)
      = leafCount c p r (sub_id ++ ":" ++ scope)
          + get_resource_count_for_scope scope sub_id rl := by
  unfold add_assignment leafCount
  simp [lookupD_insertD_self]

theorem leafCount_foldl_add (p r k : String) (calls : List CallArgs) (c0 : Combined)
    (hk : ∀ t ∈ calls, t.sub_id ++ ":" ++ t.scope = k) :
    leafCount
        (calls.foldl (fun c t => add_assignment c p r t.scope t.sub_id t.resource_lookup) c0)
        p r k
      = leafCount c0 p r k
          + (calls.map
              (fun t => get_resource_count_for_scope t.scope t.sub_id t.resource_lookup)).sum := by
  induction calls generalizing c0 with
  | nil => simp
  | cons t rest ih =>
    have hkt : t.sub_id ++ ":" ++ t.scope = k := hk t (by simp)
    have hrest : ∀ x ∈ rest, x.sub_id ++ ":" ++ x.scope = k := fun x hx => hk x (by simp [hx])
    simp only [List.foldl_cons, List.map_cons, List.sum_cons]
    rw [ih _ hrest, ← hkt, leafCount_add_same]
    omega

/-- C6: starting from a combined mapping in which the leaf `k` is absent under
`(p, r)`, any sequence of `add_assignment` calls for `(p, r)` whose arguments
produce the same leaf key `k` leaves that key holding the sum of the per-call
resource counts — accumulation, not overwrite. -/
theorem C6_additive_leaf (p r k : String) (calls : List CallArgs) (c0 : Combined)
    (hk : ∀ t ∈ calls, t.sub_id ++ ":" ++ t.scope = k)
    (h0 : leafCount c0 p r k = 0) :
    leafCount
        (calls.foldl (fun c t => add_assignment c p r t.scope t.sub_id t.resource_lookup) c0)
        p r k
      = (calls.map
          (fun t => get_resource_count_for_scope t.scope t.sub_id t.resource_lookup)).sum := by
  rw [leafCount_foldl_add p r k calls c0 hk, h0, Nat.zero_add]

/-- Witness for C6: two concrete calls targeting the leaf `"s:/x"` leave the
leaf holding `2`, the sum of the two resolved counts. -/
theorem C6_additive_leaf_witness :
    leafCount
        (c6_calls.foldl (fun c t => add_assignment c "p" "r" t.scope t.sub_id t.resource_lookup)
          [])
        "p" "r" "s:/x"
      = (c6_calls.map
          (fun t => get_resource_count_for_scope t.scope t.sub_id t.resource_lookup)).sum :=
  C6_additive_leaf "p" "r" "s:/x" c6_calls [] (by decide) (by decide)

/-! ## C7: missing group-expansion data is contained -/

theorem process_group_filter_eq (sub_id : String) (ga : List (String × GAssign))
    (gm : List (String × GroupEntry)) (c : Combined) (rl : Option ResourceLookup) :
    process_group_assignments sub_id (some ga) (some gm) c rl
      = process_group_assignments sub_id
          (some (ga.filter (fun p => (lookupD p.1 gm).isSome))) (some gm) c rl := by
  induction ga generalizing c with
  | nil => rfl
  | cons p rest ih =>
    simp only [process_group_assignments, List.filter_cons]
    cases hl : lookupD p.1 gm with
    | none =>
      simp only [hl, Option.isSome_none, Bool.false_eq_true, if_false, List.foldl_cons]
      exact ih c
    | some entry =>
      simp only [hl, Option.isSome_some, if_true, List.foldl_cons]
      exact ih _

theorem process_subscription_normalize (c : Combined) (s : SubInput) :
    process_subscription c s = process_subscription c (normalize_groups s) := by
  unfold process_subscription normalize_groups
  cases hga : s.group_file with
  | none =>
    cases hgm : s.members_file with
    | none => rfl
    | some gm => rfl
  | some ga =>
    cases hgm : s.members_file with
    | none => rfl
    | some gm =>
      simp only [hga, hgm]
      exact process_group_filter_eq _ _ _ _ _

theorem combine_all_fold_normalize (subs : List SubInput) (acc : Combined) :
    subs.foldl process_subscription acc
      = (subs.map normalize_groups).foldl process_subscription acc := by
  induction subs generalizing acc with
  | nil => rfl
  | cons s rest ih =>
    simp only [List.foldl_cons, List.map_cons]
    rw [← process_subscription_normalize]
    exact ih _

theorem combine_all_normalize (subs : List SubInput) :
    combine_all subs = combine_all (subs.map normalize_groups) := by
  unfold combine_all
  exact combine_all_fold_normalize subs []

/-- C7: a missing group-assignment file or group-members file leaves the
combined mapping unchanged; groups whose ids are absent from the loaded
expansion map contribute nothing (processing is identical to processing only
the expanded groups); and the whole aggregation over all subscriptions gives
the same result as if every unexpanded group did not exist. -/
theorem C7_missing_group_data :
    (∀ sub_id gm c rl, process_group_assignments sub_id none gm c rl = c) ∧
    (∀ sub_id gf c rl, process_group_assignments sub_id gf none c rl = c) ∧
    (∀ sub_id ga gm c rl,
      process_group_assignments sub_id (some ga) (some gm) c rl
        = process_group_assignments sub_id
            (some (ga.filter (fun p => (lookupD p.1 gm).isSome))) (some gm) c rl) ∧
    (∀ subs, combine_all subs = combine_all (subs.map normalize_groups)) := by
  refine ⟨?_, ?_, ?_, ?_⟩
  · intro sub_id gm c rl
    cases gm <;> rfl
  · intro sub_id gf c rl
    cases gf <;> rfl
  · intro sub_id ga gm c rl
    exact process_group_filter_eq sub_id ga gm c rl
  · exact combine_all_normalize

/-! ## C10: the identity join emits exactly the profile-map principals -/

theorem outIds_cons (a : String) (inner : List (String × UserEntry))
    (rest : List (String × List (String × UserEntry))) :
    outIds ((a, inner) :: rest) = inner.map Prod.fst ++ outIds rest := rfl

theorem mem_outIds_insert_identity (out : List (String × List (String × UserEntry)))
    (nm uid q : String) (e : UserEntry) :
    q ∈ outIds (insert_identity out nm uid e) ↔ q = uid ∨ q ∈ outIds out := by
  unfold insert_identity
  induction out with
  | nil =>
    simp [outIds, insertD, lookupD, eq_comm]
  | cons p rest ih =>
    rcases p with ⟨a, inner⟩
    by_cases h : a = nm
    · subst h
      have h1 : lookupD a ((a, inner) :: rest) = some inner := by simp [lookupD]
      have h2 : ∀ v : List (String × UserEntry),
          insertD a v ((a, inner) :: rest) = (a, v) :: rest := by
        intro v
        simp [insertD]
      rw [h1, Option.getD_some, h2, outIds_cons, outIds_cons, List.mem_append, List.mem_append,
        mem_keys_insertD]
      tauto
    · have h1 : lookupD nm ((a, inner) :: rest) = lookupD nm rest := by simp [lookupD, h]
      have h2 : ∀ v : List (String × UserEntry),
          insertD nm v ((a, inner) :: rest) = (a, inner) :: insertD nm v rest := by
        intro v
        simp [insertD, h]
      rw [h1, h2, outIds_cons, outIds_cons, List.mem_append, List.mem_append, ih]
      tauto

theorem mem_outIds_foldl (user_data : List (String × Profile))
    (table : List (String × RbacObj)) (acc : List (String × List (String × UserEntry)))
    (q : String) :
    q ∈ outIds (user_data.foldl
        (fun out p =>
          insert_identity out (full_name_of p.2) p.1 (build_user_entry p.2 (lookupD p.1 table)))
        acc)
      ↔ q ∈ outIds acc ∨ q ∈ user_data.map Prod.fst := by
  induction user_data generalizing acc with
  | nil => simp
  | cons p rest ih =>
    simp only [List.foldl_cons, List.map_cons, List.mem_cons]
    rw [ih, mem_outIds_insert_identity]
    tauto

/-- C10: the identity join emits a record for principal id `p` exactly when
`p` is a key of the profile map; aggregate subtrees whose decoded principal id
has no profile record are dropped from the joined output. -/
theorem C10_join_emits_profile_ids (user_data : List (String × Profile))
    (rbac_data : List (String × RbacObj)) (p : String) :
    p ∈ outIds (combine_identities user_data rbac_data) ↔ p ∈ user_data.map Prod.fst := by
  unfold combine_identities
  rw [mem_outIds_foldl]
  simp [outIds]

/-! ## Expansion basics: unfolding, visited-set growth, fuel sufficiency -/

theorem expandF_zero (g : Graph) (gid : String) (vis : Finset String) :
    expandF g 0 gid vis = (emptyAgg, vis) := rfl

theorem expandF_succ (g : Graph) (fuel : Nat) (gid : String) (vis : Finset String) :
    expandF g (fuel + 1) gid vis =
      if gid ∈ vis then (emptyAgg, vis)
      else List.foldl (stepF g fuel) (emptyAgg, insert gid vis) (membersOf g gid) := rfl

theorem expandF_mem (g : Graph) (fuel : Nat) (gid : String) (vis : Finset String)
    (h : gid ∈ vis) : expandF g fuel gid vis = (emptyAgg, vis) := by
  cases fuel with
  | zero => rfl
  | succ fuel => rw [expandF_succ, if_pos h]

theorem mergeAgg_empty (x : Agg) : mergeAgg x emptyAgg = x := by
  unfold mergeAgg emptyAgg
  cases x
  simp

theorem lookupD_none_of_not_mem {α : Type} (k : String) (l : List (String × α))
    (h : k ∉ l.map Prod.fst) : lookupD k l = none := by
  induction l with
  | nil => rfl
  | cons p rest ih =>
    rcases p with ⟨x, y⟩
    simp only [List.map_cons, List.mem_cons] at h
    push_neg at h
    simp only [lookupD]
    rw [if_neg (fun hx => h.1 hx.symm)]
    exact ih h.2

theorem lookupD_some_mem {α : Type} (k : String) (v : α) (l : List (String × α))
    (h : lookupD k l = some v) : (k, v) ∈ l := by
  induction l with
  | nil => simp [lookupD] at h
  | cons p rest ih =>
    rcases p with ⟨x, y⟩
    simp only [lookupD] at h
    split at h
    · rename_i heq
      injection h with hv
      subst heq
      subst hv
      exact List.mem_cons_self _ _
    · exact List.mem_cons_of_mem _ (ih h)

theorem membersOf_not_node (g : Graph) (gid : String) (h : gid ∉ nodesOf g) :
    membersOf g gid = [] := by
  unfold membersOf
  rw [lookupD_none_of_not_mem]
  · rfl
  · intro hm
    exact h (List.mem_toFinset.mpr hm)

theorem nodesOf_remove (g : Graph) (b a : String) :
    nodesOf (remove_cycle_edge g b a) = nodesOf g := by
  unfold nodesOf remove_cycle_edge
  rw [List.map_map]
  rfl

theorem graph_fuel_remove (g : Graph) (b a : String) :
    graph_fuel (remove_cycle_edge g b a) = graph_fuel g := by
  unfold graph_fuel
  rw [nodesOf_remove]

theorem lookupD_remove (g : Graph) (b a k : String) :
    lookupD k (remove_cycle_edge g b a)
      = (lookupD k g).map
          (fun ms => if k = b then ms.filter (fun m => !(isGroupEdgeTo a m)) else ms) := by
  induction g with
  | nil => rfl
  | cons e rest ih =>
    rcases e with ⟨x, ys⟩
    simp only [remove_cycle_edge, List.map_cons] at ih ⊢
    simp only [lookupD]
    by_cases hk : x = k
    · subst hk
      rw [if_pos rfl, if_pos rfl, Option.map_some']
    · rw [if_neg hk, if_neg hk]
      exact ih

theorem membersOf_remove_self (g : Graph) (b a : String) :
    membersOf (remove_cycle_edge g b a) b
      = (membersOf g b).filter (fun m => !(isGroupEdgeTo a m)) := by
  unfold membersOf
  rw [lookupD_remove]
  cases lookupD b g with
  | none => rfl
  | some ms => simp

theorem membersOf_remove_ne (g : Graph) (b a gid : String) (h : gid ≠ b) :
    membersOf (remove_cycle_edge g b a) gid = membersOf g gid := by
  unfold membersOf
  rw [lookupD_remove]
  cases lookupD gid g with
  | none => rfl
  | some ms => simp [h]

theorem visGap_le_of_sub (g : Graph) (vis vis' : Finset String) (h : vis ⊆ vis') :
    visGap g vis' ≤ visGap g vis := by
  unfold visGap
  exact Finset.card_le_card (Finset.sdiff_subset_sdiff (Finset.Subset.refl _) h)

theorem visGap_insert_lt (g : Graph) (gid : String) (vis : Finset String)
    (hn : gid ∈ nodesOf g) (hv : gid ∉ vis) :
    visGap g (insert gid vis) < visGap g vis := by
  unfold visGap
  apply Finset.card_lt_card
  constructor
  · exact Finset.sdiff_subset_sdiff (Finset.Subset.refl _) (Finset.subset_insert _ _)
  · intro hsub
    have : gid ∈ nodesOf g \ vis := Finset.mem_sdiff.mpr ⟨hn, hv⟩
    have := hsub this
    rw [Finset.mem_sdiff] at this
    exact this.2 (Finset.mem_insert_self _ _)

theorem visGap_le_card (g : Graph) (vis : Finset String) :
    visGap g vis ≤ (nodesOf g).card :=
  Finset.card_le_card (Finset.sdiff_subset)

theorem foldl_step_sub (g : Graph) (fuel : Nat)
    (hE : ∀ gid vis, vis ⊆ (expandF g fuel gid vis).2) :
    ∀ (ms : List (String × String)) (st : Agg × Finset String),
      st.2 ⊆ (List.foldl (stepF g fuel) st ms).2 := by
  intro ms
  induction ms with
  | nil => intro st; exact Finset.Subset.refl _
  | cons m rest ih =>
    intro st
    rw [List.foldl_cons]
    refine Finset.Subset.trans ?_ (ih (stepF g fuel st m))
    unfold stepF
    cases classifyMember m.1 with
    | user => exact Finset.Subset.refl _
    | group => exact hE m.2 st.2
    | other => exact Finset.Subset.refl _

theorem expandF_vis_sub (g : Graph) :
    ∀ (fuel : Nat) (gid : String) (vis : Finset String), vis ⊆ (expandF g fuel gid vis).2 := by
  intro fuel
  induction fuel with
  | zero => intro gid vis; exact Finset.Subset.refl _
  | succ fuel ih =>
    intro gid vis
    rw [expandF_succ]
    by_cases h : gid ∈ vis
    · rw [if_pos h]
    · rw [if_neg h]
      exact Finset.Subset.trans (Finset.subset_insert gid vis)
        (foldl_step_sub g fuel ih (membersOf g gid) (emptyAgg, insert gid vis))

theorem foldl_step_fuel (g : Graph) (fuel : Nat)
    (hE : ∀ gid vis, visGap g vis + 1 ≤ fuel → expandF g (fuel + 1) gid vis = expandF g fuel gid vis) :
    ∀ (ms : List (String × String)) (st : Agg × Finset String),
      visGap g st.2 + 1 ≤ fuel →
      List.foldl (stepF g (fuel + 1)) st ms = List.foldl (stepF g fuel) st ms := by
  intro ms
  induction ms with
  | nil => intro st _; rfl
  | cons m rest ih =>
    intro st hst
    rw [List.foldl_cons, List.foldl_cons]
    have hstep : stepF g (fuel + 1) st m = stepF g fuel st m := by
      unfold stepF
      cases hc : classifyMember m.1 with
      | user => rfl
      | other => rfl
      | group =>
        by_cases hm : m.2 ∈ st.2
        · rw [expandF_mem g (fuel + 1) m.2 st.2 hm, expandF_mem g fuel m.2 st.2 hm]
        · rw [hE m.2 st.2 hst]
    rw [hstep]
    apply ih
    have hsub : st.2 ⊆ (stepF g fuel st m).2 := by
      unfold stepF
      cases classifyMember m.1 with
      | user => exact Finset.Subset.refl _
      | other => exact Finset.Subset.refl _
      | group => exact expandF_vis_sub g fuel m.2 st.2
    have := visGap_le_of_sub g st.2 (stepF g fuel st m).2 hsub
    omega

theorem expandF_fuel_succ (g : Graph) :
    ∀ (fuel : Nat) (gid : String) (vis : Finset String),
      visGap g vis + 1 ≤ fuel → expandF g (fuel + 1) gid vis = expandF g fuel gid vis := by
  intro fuel
  induction fuel with
  | zero => intro gid vis h; omega
  | succ fuel ih =>
    intro gid vis h
    by_cases hm : gid ∈ vis
    · rw [expandF_mem g (fuel + 1 + 1) gid vis hm, expandF_mem g (fuel + 1) gid vis hm]
    · rw [expandF_succ g (fuel + 1) gid vis, expandF_succ g fuel gid vis, if_neg hm, if_neg hm]
      by_cases hn : gid ∈ nodesOf g
      · apply foldl_step_fuel g fuel ih
        have hlt := visGap_insert_lt g gid vis hn hm
        dsimp only
        omega
      · rw [membersOf_not_node g gid hn]
        rfl

theorem expandF_stable (g : Graph) :
    ∀ (k : Nat) (gid : String) (vis : Finset String),
      expandF g (graph_fuel g + k) gid vis = expand_group_membership g gid vis := by
  intro k
  induction k with
  | zero => intro gid vis; rfl
  | succ k ih =>
    intro gid vis
    have hcard := visGap_le_card g vis
    have hgf : graph_fuel g = (nodesOf g).card + 1 := rfl
    have h : visGap g vis + 1 ≤ graph_fuel g + k := by omega
    have heq : graph_fuel g + (k + 1) = (graph_fuel g + k) + 1 := rfl
    rw [heq, expandF_fuel_succ g (graph_fuel g + k) gid vis h]
    exact ih gid vis

/-! ## Simulation between a graph and the graph with cycle edges into a root removed -/

theorem aggRel_refl (a : String) (x : Agg) : aggRel a x x :=
  ⟨rfl, rfl, Finset.Subset.refl _, Finset.subset_insert _ _⟩

theorem aggRel_addUser (a i : String) (x y : Agg) (h : aggRel a x y) :
    aggRel a (addUser i x) (addUser i y) :=
  ⟨congrArg (insert i) h.1, h.2.1, h.2.2.1, h.2.2.2⟩

theorem aggRel_addOther (a i : String) (x y : Agg) (h : aggRel a x y) :
    aggRel a (addOther i x) (addOther i y) :=
  ⟨h.1, congrArg (insert i) h.2.1, h.2.2.1, h.2.2.2⟩

theorem aggRel_addGroup (a i : String) (x y : Agg) (h : aggRel a x y) :
    aggRel a (addGroup i x) (addGroup i y) := by
  obtain ⟨h1, h2, h3, h4⟩ := h
  refine ⟨h1, h2, Finset.insert_subset_insert i h3, ?_⟩
  have hstep : insert i x.groups ⊆ insert i (insert a y.groups) :=
    Finset.insert_subset_insert i h4
  rwa [Finset.Insert.comm] at hstep

theorem aggRel_addGroup_self (a : String) (x y : Agg) (h : aggRel a x y) :
    aggRel a (addGroup a x) y := by
  obtain ⟨h1, h2, h3, h4⟩ := h
  refine ⟨h1, h2, Finset.Subset.trans h3 (Finset.subset_insert a x.groups), ?_⟩
  exact Finset.insert_subset_iff.mpr ⟨Finset.mem_insert_self a y.groups, h4⟩

theorem aggRel_merge (a : String) (x y nx ny : Agg) (h : aggRel a x y)
    (hn : aggRel a nx ny) : aggRel a (mergeAgg x nx) (mergeAgg y ny) := by
  obtain ⟨h1, h2, h3, h4⟩ := h
  obtain ⟨hn1, hn2, hn3, hn4⟩ := hn
  refine ⟨by simp only [mergeAgg]; rw [h1, hn1], by simp only [mergeAgg]; rw [h2, hn2],
    Finset.union_subset_union h3 hn3, ?_⟩
  apply Finset.union_subset
  · exact Finset.Subset.trans h4 (Finset.insert_subset_insert a Finset.subset_union_left)
  · exact Finset.Subset.trans hn4 (Finset.insert_subset_insert a Finset.subset_union_right)

theorem stepF_sim (g : Graph) (a b : String) (fuel : Nat)
    (hE : ∀ gid vis, a ∈ vis →
      stRel a (expandF g fuel gid vis) (expandF (remove_cycle_edge g b a) fuel gid vis))
    (m : String × String) (st st' : Agg × Finset String)
    (hv : a ∈ st.2) (hR : aggRel a st.1 st'.1) (hvis : st.2 = st'.2) :
    aggRel a (stepF g fuel st m).1 (stepF (remove_cycle_edge g b a) fuel st' m).1 ∧
      (stepF g fuel st m).2 = (stepF (remove_cycle_edge g b a) fuel st' m).2 ∧
      a ∈ (stepF g fuel st m).2 := by
  unfold stepF
  cases hc : classifyMember m.1 with
  | user => exact ⟨aggRel_addUser a m.2 st.1 st'.1 hR, hvis, hv⟩
  | other => exact ⟨aggRel_addOther a m.2 st.1 st'.1 hR, hvis, hv⟩
  | group =>
    rw [← hvis]
    obtain ⟨hragg, hrvis⟩ := hE m.2 st.2 hv
    refine ⟨?_, hrvis, ?_⟩
    · exact aggRel_merge a _ _ _ _ (aggRel_addGroup a m.2 st.1 st'.1 hR) hragg
    · exact expandF_vis_sub g fuel m.2 st.2 hv

theorem sim_foldl_same (g : Graph) (a b : String) (fuel : Nat)
    (hE : ∀ gid vis, a ∈ vis →
      stRel a (expandF g fuel gid vis) (expandF (remove_cycle_edge g b a) fuel gid vis)) :
    ∀ (ms : List (String × String)) (st st' : Agg × Finset String),
      a ∈ st.2 → aggRel a st.1 st'.1 → st.2 = st'.2 →
      stRel a (List.foldl (stepF g fuel) st ms)
        (List.foldl (stepF (remove_cycle_edge g b a) fuel) st' ms) := by
  intro ms
  induction ms with
  | nil => intro st st' hv hR hvis; exact ⟨hR, hvis⟩
  | cons m rest ih =>
    intro st st' hv hR hvis
    rw [List.foldl_cons, List.foldl_cons]
    obtain ⟨h1, h2, h3⟩ := stepF_sim g a b fuel hE m st st' hv hR hvis
    exact ih _ _ h3 h1 h2

theorem sim_foldl_filter (g : Graph) (a b : String) (fuel : Nat)
    (hE : ∀ gid vis, a ∈ vis →
      stRel a (expandF g fuel gid vis) (expandF (remove_cycle_edge g b a) fuel gid vis)) :
    ∀ (ms : List (String × String)) (st st' : Agg × Finset String),
      a ∈ st.2 → aggRel a st.1 st'.1 → st.2 = st'.2 →
      stRel a (List.foldl (stepF g fuel) st ms)
        (List.foldl (stepF (remove_cycle_edge g b a) fuel) st'
          (ms.filter (fun x => !(isGroupEdgeTo a x)))) := by
  intro ms
  induction ms with
  | nil => intro st st' hv hR hvis; exact ⟨hR, hvis⟩
  | cons m rest ih =>
    intro st st' hv hR hvis
    cases hedge : isGroupEdgeTo a m with
    | false =>
      have hf : (m :: rest).filter (fun x => !(isGroupEdgeTo a x))
          = m :: rest.filter (fun x => !(isGroupEdgeTo a x)) := by
        simp [List.filter_cons, hedge]
      rw [hf, List.foldl_cons, List.foldl_cons]
      obtain ⟨h1, h2, h3⟩ := stepF_sim g a b fuel hE m st st' hv hR hvis
      exact ih _ _ h3 h1 h2
    | true =>
      have hf : (m :: rest).filter (fun x => !(isGroupEdgeTo a x))
          = rest.filter (fun x => !(isGroupEdgeTo a x)) := by
        simp [List.filter_cons, hedge]
      have hcls : classifyMember m.1 = MemberClass.group := by
        unfold isGroupEdgeTo at hedge
        revert hedge
        cases classifyMember m.1 with
        | user => intro hedge; simp at hedge
        | group => intro _; rfl
        | other => intro hedge; simp at hedge
      have hma : m.2 = a := by
        unfold isGroupEdgeTo at hedge
        rw [hcls] at hedge
        simpa using hedge
      have hstep : stepF g fuel st m = (addGroup a st.1, st.2) := by
        unfold stepF
        rw [hcls, hma, expandF_mem g fuel a st.2 hv]
        simp [mergeAgg_empty]
      rw [hf, List.foldl_cons, hstep]
      exact ih _ _ hv (aggRel_addGroup_self a st.1 st'.1 hR) hvis

theorem sim_expandF (g : Graph) (a b : String) :
    ∀ (fuel : Nat) (gid : String) (vis : Finset String), a ∈ vis →
      stRel a (expandF g fuel gid vis) (expandF (remove_cycle_edge g b a) fuel gid vis) := by
  intro fuel
  induction fuel with
  | zero => intro gid vis hv; exact ⟨aggRel_refl a emptyAgg, rfl⟩
  | succ fuel ih =>
    intro gid vis hv
    rw [expandF_succ, expandF_succ]
    by_cases hm : gid ∈ vis
    · rw [if_pos hm, if_pos hm]
      exact ⟨aggRel_refl a emptyAgg, rfl⟩
    · rw [if_neg hm, if_neg hm]
      by_cases hgb : gid = b
      · subst hgb
        rw [membersOf_remove_self]
        exact sim_foldl_filter g a gid fuel ih (membersOf g gid) _ _
          (Finset.mem_insert_of_mem hv) (aggRel_refl a emptyAgg) rfl
      · rw [membersOf_remove_ne g b a gid hgb]
        exact sim_foldl_same g a b fuel ih (membersOf g gid) _ _
          (Finset.mem_insert_of_mem hv) (aggRel_refl a emptyAgg) rfl

theorem sim_top (g : Graph) (a b : String) :
    stRel a (expand_group_membership g a ∅)
      (expand_group_membership (remove_cycle_edge g b a) a ∅) := by
  unfold expand_group_membership
  rw [graph_fuel_remove]
  have hgf : graph_fuel g = (nodesOf g).card + 1 := rfl
  rw [hgf, expandF_succ, expandF_succ]
  rw [if_neg (Finset.not_mem_empty a), if_neg (Finset.not_mem_empty a)]
  by_cases hab : a = b
  · subst hab
    rw [membersOf_remove_self]
    exact sim_foldl_filter g a a ((nodesOf g).card)
      (fun gid vis hv => sim_expandF g a a ((nodesOf g).card) gid vis hv)
      (membersOf g a) _ _ (Finset.mem_insert_self a ∅) (aggRel_refl a emptyAgg) rfl
  · rw [membersOf_remove_ne g b a a hab]
    exact sim_foldl_same g a b ((nodesOf g).card)
      (fun gid vis hv => sim_expandF g a b ((nodesOf g).card) gid vis hv)
      (membersOf g a) _ _ (Finset.mem_insert_self a ∅) (aggRel_refl a emptyAgg) rfl

/-! ## Which ids can enter the groups set -/

theorem groupTargets_cons_group (m : String × String) (ms : List (String × String))
    (hc : classifyMember m.1 = MemberClass.group) :
    groupTargetsOfList (m :: ms) = m.2 :: groupTargetsOfList ms := by
  unfold groupTargetsOfList
  rw [List.filterMap_cons, hc]

theorem groupTargets_cons_sub (m : String × String) (ms : List (String × String)) (x : String)
    (h : x ∈ groupTargetsOfList ms) : x ∈ groupTargetsOfList (m :: ms) := by
  unfold groupTargetsOfList at h ⊢
  rw [List.filterMap_cons]
  cases classifyMember m.1 with
  | user => exact h
  | group => exact List.mem_cons_of_mem _ h
  | other => exact h

theorem targets_members_sub (g : Graph) (gid x : String)
    (h : x ∈ groupTargetsOfList (membersOf g gid)) : x ∈ groupEdgeTargets g := by
  unfold membersOf at h
  cases hl : lookupD gid g with
  | none => rw [hl] at h; simp [groupTargetsOfList] at h
  | some ms =>
    rw [hl] at h
    have hmem := lookupD_some_mem gid ms g hl
    unfold groupTargetsOfList at h
    unfold groupEdgeTargets
    rw [List.mem_filterMap] at h ⊢
    obtain ⟨m, hm, hfm⟩ := h
    exact ⟨m, List.mem_flatMap.mpr ⟨(gid, ms), hmem, hm⟩, hfm⟩

theorem foldl_groups_targets (g : Graph) (fuel : Nat)
    (hE : ∀ gid vis x, x ∈ (expandF g fuel gid vis).1.groups → x ∈ groupEdgeTargets g) :
    ∀ (ms : List (String × String)) (st : Agg × Finset String) (x : String),
      x ∈ (List.foldl (stepF g fuel) st ms).1.groups →
      x ∈ st.1.groups ∨ x ∈ groupTargetsOfList ms ∨ x ∈ groupEdgeTargets g := by
  intro ms
  induction ms with
  | nil => intro st x hx; exact Or.inl hx
  | cons m rest ih =>
    intro st x hx
    rw [List.foldl_cons] at hx
    rcases ih (stepF g fuel st m) x hx with h | h | h
    · revert h
      unfold stepF
      cases hc : classifyMember m.1 with
      | user => intro h; exact Or.inl h
      | other => intro h; exact Or.inl h
      | group =>
        intro h
        simp only [mergeAgg, addGroup] at h
        rcases Finset.mem_union.mp h with h | h
        · rcases Finset.mem_insert.mp h with h | h
          · subst h
            exact Or.inr (Or.inl (by
              rw [groupTargets_cons_group m rest hc]
              exact List.mem_cons_self _ _))
          · exact Or.inl h
        · exact Or.inr (Or.inr (hE m.2 st.2 x h))
    · exact Or.inr (Or.inl (groupTargets_cons_sub m rest x h))
    · exact Or.inr (Or.inr h)

theorem expandF_groups_targets (g : Graph) :
    ∀ (fuel : Nat) (gid : String) (vis : Finset String) (x : String),
      x ∈ (expandF g fuel gid vis).1.groups → x ∈ groupEdgeTargets g := by
  intro fuel
  induction fuel with
  | zero =>
    intro gid vis x hx
    simp [expandF_zero, emptyAgg] at hx
  | succ fuel ih =>
    intro gid vis x hx
    rw [expandF_succ] at hx
    by_cases hm : gid ∈ vis
    · rw [if_pos hm] at hx
      simp [emptyAgg] at hx
    · rw [if_neg hm] at hx
      rcases foldl_groups_targets g fuel ih (membersOf g gid) (emptyAgg, insert gid vis) x hx
        with h | h | h
      · simp [emptyAgg] at h
      · exact targets_members_sub g gid x h
      · exact h

/-! ## C2: cycle safety of group expansion -/

/-- C2 counterexample: for the concrete cycle `A -> B -> A`, the expansion
result of `A` differs from the result over the graph with the cycle edge
`B -> A` removed — the original run additionally records `A` inside its own
`groups` set, because the expander adds a member's id to `groups` before the
visited guard fires. -/
theorem C2_counterexample :
    (expand_group_membership cycleG "A" ∅).1
      ≠ (expand_group_membership (remove_cycle_edge cycleG "B" "A") "A" ∅).1 := by
  decide

/-- C2 (amended): expansion terminates — any fuel beyond the sufficient
budget computes the same result — and for every graph, expanding `A` over the
graph with the cycle edge `B -> A` removed yields the same `users` and
`others` sets, while the `groups` sets agree except that the original run may
additionally contain `A` itself. -/
theorem C2_cycle_safety_amended (g : Graph) (a b : String) :
    (∀ k, expandF g (graph_fuel g + k) a ∅ = expand_group_membership g a ∅) ∧
    (expand_group_membership g a ∅).1.users
        = (expand_group_membership (remove_cycle_edge g b a) a ∅).1.users ∧
    (expand_group_membership g a ∅).1.others
        = (expand_group_membership (remove_cycle_edge g b a) a ∅).1.others ∧
    (expand_group_membership (remove_cycle_edge g b a) a ∅).1.groups
        ⊆ (expand_group_membership g a ∅).1.groups ∧
    (expand_group_membership g a ∅).1.groups
        ⊆ insert a (expand_group_membership (remove_cycle_edge g b a) a ∅).1.groups := by
  obtain ⟨⟨h1, h2, h3, h4⟩, hvis⟩ := sim_top g a b
  exact ⟨fun k => expandF_stable g k a ∅, h1, h2, h3, h4⟩

/-! ## C4: no self-membership -/

/-- C4 counterexample: in the cycle `A -> B -> A` the expansion of `A` does
list `A` inside its own transitive `groups` set, because the member id is
added to `groups` before the recursive call hits the visited guard. -/
theorem C4_counterexample :
    "A" ∈ (expand_group_membership cycleG "A" ∅).1.groups := by
  decide

/-- C4 (amended): the expansion of `a` can only place group-typed edge
targets into the `groups` set, so whenever no member list of the graph has a
group-typed edge pointing back at `a` — in particular in any graph without a
cycle through `a` — the result for `a` never contains `a` itself. -/
theorem C4_no_self_membership_amended (g : Graph) (a : String)
    (h : a ∉ groupEdgeTargets g) :
    a ∉ (expand_group_membership g a ∅).1.groups :=
  fun hmem => h (expandF_groups_targets g (graph_fuel g) a ∅ a hmem)

/-- Witness for C4 (amended) on a concrete acyclic graph. -/
theorem C4_no_self_membership_witness :
    "A" ∉ (expand_group_membership acyclicG "A" ∅).1.groups :=
  C4_no_self_membership_amended acyclicG "A" (by decide)

/-! ## C9: frequency independence from iteration order -/

theorem lookupD_bump_foldl (rows : List RowBase) (m0 : List (String × Nat)) (k : String) :
    (lookupD k (rows.foldl
        (fun m r => insertD r.role ((lookupD r.role m).getD 0 + 1) m) m0)).getD 0
      = (lookupD k m0).getD 0 + rows.countP (fun r => r.role = k) := by
  induction rows generalizing m0 with
  | nil => simp
  | cons r rest ih =>
    rw [List.foldl_cons, ih, List.countP_cons]
    by_cases h : r.role = k
    · rw [h, lookupD_insertD_self]
      simp [h]
      omega
    · rw [lookupD_insertD_ne k r.role _ m0 h]
      simp [h]

theorem role_count_lookup (data : JData) (k : String) :
    (lookupD k (role_count_map data)).getD 0
      = (passA_rows data).countP (fun r => r.role = k) := by
  unfold role_count_map
  rw [lookupD_bump_foldl]
  simp [lookupD]

theorem j_rows_eq (data : JData) :
    j_rows data = (passA_rows data).map (fun r =>
      { principle_count := (passA_rows data).countP (fun q => q.role = r.role)
        role := r.role
        name := r.name
        displayName := r.displayName
        jobTitle := r.jobTitle
        principalID := r.principalID
        scope := r.scope }) := by
  unfold j_rows
  apply List.map_congr_left
  intro r _
  rw [role_count_lookup]

theorem mrowsOf_coe (nm pid : String) (dn jt : Option String) (rb : RbacObj) :
    mrowsOf nm pid (dn, jt, ((rb.map (fun p => (p.1, (p.2 : Multiset (String × String))))) :
        Multiset (String × Multiset (String × String))))
      = (↑(rb.flatMap (fun rEntry =>
          rEntry.2.map (fun lf =>
            ({ role := parse_bracketed_label rEntry.1
               name := nm
               displayName := dn.getD ""
               jobTitle := jt.getD ""
               principalID := pid
               scope := lf.2 } : RowBase)))) : Multiset RowBase) := by
  induction rb with
  | nil => rfl
  | cons rEntry rest ih =>
    unfold mrowsOf at ih ⊢
    rw [List.map_cons, ← Multiset.cons_coe, Multiset.cons_bind, ih, List.flatMap_cons,
      ← Multiset.coe_add, Multiset.map_coe]

theorem principal_rows_coe (nm : String) (pEntries : List (String × JDetails)) :
    Multiset.bind
        ((pEntries.map (fun pEntry => (pEntry.1, canonDetails pEntry.2)) :
            List (String × CanonDetails)) : Multiset (String × CanonDetails))
        (fun pEntry => mrowsOf nm pEntry.1 pEntry.2)
      = (↑(pEntries.flatMap (fun pEntry =>
          (pEntry.2.rbac.getD []).flatMap (fun rEntry =>
            rEntry.2.map (fun lf =>
              ({ role := parse_bracketed_label rEntry.1
                 name := nm
                 displayName := pEntry.2.displayName.getD ""
                 jobTitle := pEntry.2.jobTitle.getD ""
                 principalID := pEntry.1
                 scope := lf.2 } : RowBase))))) : Multiset RowBase) := by
  induction pEntries with
  | nil => rfl
  | cons pEntry rest ih =>
    rw [List.map_cons, ← Multiset.cons_coe, Multiset.cons_bind, ih, List.flatMap_cons,
      ← Multiset.coe_add]
    congr 1
    exact mrowsOf_coe nm pEntry.1 pEntry.2.displayName pEntry.2.jobTitle (pEntry.2.rbac.getD [])

theorem passA_coe (data : JData) :
    (↑(passA_rows data) : Multiset RowBase) = mrows (canonData data) := by
  unfold passA_rows mrows canonData
  induction data with
  | nil => rfl
  | cons nEntry rest ih =>
    rw [List.map_cons, ← Multiset.cons_coe, Multiset.cons_bind, ← ih, List.flatMap_cons,
      ← Multiset.coe_add]
    congr 1
    exact (principal_rows_coe nEntry.1 nEntry.2).symm

theorem jpairs_canon (data : JData) :
    (↑((j_rows data).map rolePair) : Multiset (String × Nat))
      = mpairs (mrows (canonData data)) := by
  rw [← passA_coe]
  unfold mpairs
  rw [j_rows_eq, List.map_map, Multiset.map_coe]
  congr 1

/-- C9: every emitted row's `principle_count` equals the number of emitted
rows sharing its role label, and two inputs that agree up to permuting the
iteration order over names, principals, roles and leaves (equal canonical
multiset forms) yield the same multiset of `(role, principle_count)` pairs. -/
theorem C9_frequency_order_independence (data data' : JData)
    (hperm : canonData data = canonData data') :
    (∀ row ∈ j_rows data,
        row.principle_count = (j_rows data).countP (fun q => q.role = row.role)) ∧
    (↑((j_rows data).map rolePair) : Multiset (String × Nat))
        = (↑((j_rows data').map rolePair) : Multiset (String × Nat)) := by
  constructor
  · intro row hrow
    rw [j_rows_eq] at hrow ⊢
    rw [List.mem_map] at hrow
    obtain ⟨r, _, hr⟩ := hrow
    subst hr
    rw [List.countP_map]
    rfl
  · rw [jpairs_canon, jpairs_canon, hperm]

/-- Witness for C9 on a concrete input and a shuffled copy of it. -/
theorem C9_frequency_order_independence_witness :
    (∀ row ∈ j_rows c9_data,
        row.principle_count = (j_rows c9_data).countP (fun q => q.role = row.role)) ∧
    (↑((j_rows c9_data).map rolePair) : Multiset (String × Nat))
        = (↑((j_rows c9_data_shuffled).map rolePair) : Multiset (String × Nat)) :=
  C9_frequency_order_independence c9_data c9_data_shuffled (by decide)
